import Mathlib

/-!
Shallow embedding of the process-supervisor core of `src/qe_runner.py`
(Quantum Espresso runner): outcome classification over captured output
text, executable resolution, namelist directory extraction, run-directory
preparation, timeout escalation in `run_pw`, and the exit-code mapping of
`main`.  File reads and filesystem state are passed explicitly
(`Option (List Char)` for the output-file read of `_detect_qe_errors`,
whose `errors="ignore"` decoding leaves `OSError` as the only failure;
`ReadOutcome` for the input-deck read of `_ensure_output_dirs`, which
can also fail with an uncaught `UnicodeDecodeError`; `List Char → Bool`
for existence tests); side effects (mkdir, spawn, signals) are recorded
as explicit event lists.
-/

namespace QERunner

/-- ASCII lower-casing, modelling `re.IGNORECASE` folding for the ASCII
keys used by the program. -/
def lowerAscii (c : Char) : Char :=
  if 65 ≤ c.toNat ∧ c.toNat ≤ 90 then Char.ofNat (c.toNat + 32) else c

/-- The single-quote character (spelled via its code point). -/
def squote : Char := Char.ofNat 39

/-- The double-quote character (spelled via its code point). -/
def dquote : Char := Char.ofNat 34

/-- Python regex `\s` over ASCII: space, tab, newline, vertical tab,
form feed, carriage return. -/
def pyIsSpace (c : Char) : Bool :=
  c = ' ' || c = '\t' || c = '\n' || c = '\x0b' || c = '\x0c' || c = '\r'

/-- Executable prefix test on character lists. -/
def isPre : List Char → List Char → Bool
  | [], _ => true
  | _ :: _, [] => false
  | a :: p, b :: t => a = b && isPre p t

/-- Executable substring test: models `re.search` of a literal pattern. -/
def isSubstr (p : List Char) : List Char → Bool
  | [] => p.isEmpty
  | c :: rest => isPre p (c :: rest) || isSubstr p rest

/-- Mathematical statement that `p` occurs as a contiguous substring of `t`. -/
def SubstringOf (p t : List Char) : Prop := ∃ u v, t = u ++ p ++ v

/-- `ERROR_PATTERNS` from `qe_runner.py` lines 18-25; each is a literal
string (no regex metacharacters), so `re.search` is substring search. -/
def ERROR_PATTERNS : List (List Char) :=
  ["Error in routine".toList, "MPI_ABORT".toList, "forrtl: severe".toList,
   "Maximum CPU time exceeded".toList, "cannot open file".toList, "ERROR".toList]

/-- `SUCCESS_PATTERNS` from `qe_runner.py` lines 27-30; `JOB DONE\.`
is the literal text `JOB DONE.`. -/
def SUCCESS_PATTERNS : List (List Char) :=
  ["convergence has been achieved".toList, "JOB DONE.".toList]

/-- `any(re.search(pat, content) for pat in ERROR_PATTERNS)` (line 73). -/
def has_error_of (content : List Char) : Bool :=
  ERROR_PATTERNS.any (fun p => isSubstr p content)

/-- `any(re.search(pat, content) for pat in SUCCESS_PATTERNS)` (line 74). -/
def has_success_of (content : List Char) : Bool :=
  SUCCESS_PATTERNS.any (fun p => isSubstr p content)

/-- `_detect_qe_errors` (lines 67-75): the file read is passed explicitly,
`none` standing for an `OSError` on `read_text`, in which case the
function returns `(False, False)`. -/
def _detect_qe_errors : Option (List Char) → Bool × Bool
  | none => (false, false)
  | some content => (has_error_of content, has_success_of content)

/-- `os.path.isabs` on POSIX: the string starts with a slash. -/
def isabs (s : List Char) : Bool :=
  match s with
  | [] => false
  | c :: _ => c = '/'

/-- `_find_pw_executable` (lines 33-36): `fsExists` models
`os.path.exists` and `which` models `shutil.which`. -/
def _find_pw_executable (fsExists : List Char → Bool)
    (which : List Char → Option (List Char)) (pw_cmd : List Char) :
    Option (List Char) :=
  if isabs pw_cmd || pw_cmd.contains '/' then
    if fsExists pw_cmd then some pw_cmd else none
  else which pw_cmd

theorem isPre_iff (p t : List Char) : isPre p t = true ↔ ∃ r, t = p ++ r := by
  induction p generalizing t with
  | nil => simp [isPre]
  | cons a p ih =>
    cases t with
    | nil => simp [isPre]
    | cons b t =>
      simp only [isPre, Bool.and_eq_true, decide_eq_true_eq, ih,
        List.cons_append, List.cons.injEq]
      constructor
      · rintro ⟨rfl, r, rfl⟩; exact ⟨r, rfl, rfl⟩
      · rintro ⟨r, rfl, rfl⟩; exact ⟨rfl, r, rfl⟩

theorem isSubstr_iff (p t : List Char) : isSubstr p t = true ↔ SubstringOf p t := by
  induction t with
  | nil =>
    simp only [isSubstr, List.isEmpty_iff, SubstringOf]
    constructor
    · rintro rfl; exact ⟨[], [], rfl⟩
    · rintro ⟨u, v, h⟩
      rcases u with _ | ⟨a, u⟩
      · rcases p with _ | ⟨b, p⟩
        · rfl
        · simp at h
      · simp at h
  | cons c rest ih =>
    simp only [isSubstr, Bool.or_eq_true, isPre_iff, ih, SubstringOf]
    constructor
    · rintro (⟨r, hr⟩ | ⟨u, v, rfl⟩)
      · exact ⟨[], r, by simpa using hr⟩
      · exact ⟨c :: u, v, rfl⟩
    · rintro ⟨u, v, h⟩
      rcases u with _ | ⟨a, u⟩
      · left; exact ⟨v, by simpa using h⟩
      · right
        simp only [List.cons_append, List.cons.injEq] at h
        exact ⟨u, v, h.2⟩

instance (p t : List Char) : Decidable (SubstringOf p t) :=
  decidable_of_iff (isSubstr p t = true) (isSubstr_iff p t)

/-- Case-insensitive match of `key` at the head of the text; on success
returns the remaining text.  Models the `{key}` part of the pattern
`rf"{key}\s*=\s*['\"]?([^,'\"\s]+)"` compiled with `re.IGNORECASE`
(the keys used, `outdir` and `pseudo_dir`, are regex-literal). -/
def matchKeyCI : List Char → List Char → Option (List Char)
  | [], t => some t
  | _ :: _, [] => none
  | k :: ks, c :: ts => if lowerAscii c = lowerAscii k then matchKeyCI ks ts else none

/-- Greedy `\s*`. -/
def skipWs : List Char → List Char
  | [] => []
  | c :: t => if pyIsSpace c then skipWs t else c :: t

/-- Characters allowed in the captured value: the class `[^,'\"\s]`. -/
def isValChar (c : Char) : Bool :=
  !(c = ',' || c = squote || c = dquote || pyIsSpace c)

/-- Remainder of the pattern after the key matched: `\s*=\s*['\"]?` then
the capture group `([^,'\"\s]+)`.  The optional quote is greedy with
backtracking; since a quote character is excluded from the value class,
the net effect is: if a quote follows, the value starts after it, and
the match succeeds exactly when the captured value is non-empty. -/
def afterKeyMatch (s : List Char) : Option (List Char) :=
  match skipWs s with
  | [] => none
  | c :: t =>
    if c = '=' then
      let u := skipWs t
      let body := match u with
        | d :: u2 => if d = squote || d = dquote then u2 else u
        | [] => u
      let v := body.takeWhile isValChar
      if v.isEmpty then none else some v
    else none

/-- Whole-pattern match attempt at the head of `s`. -/
def matchDeclAt (key : List Char) (s : List Char) : Option (List Char) :=
  (matchKeyCI key s).bind afterKeyMatch

/-- Leftmost-match search, modelling `pattern.search(text)`: try each
start position from the left, return the first successful capture. -/
def searchFrom (key : List Char) : List Char → Option (List Char)
  | [] => matchDeclAt key []
  | c :: rest =>
    match matchDeclAt key (c :: rest) with
    | some v => some v
    | none => searchFrom key rest

/-- `_parse_namelist_value` (lines 39-42): first match of the pattern
`{key}\s*=\s*['\"]?([^,'\"\s]+)` (case-insensitive) in `text`, returning
the captured group, or `none` when there is no match. -/
def _parse_namelist_value (text key : List Char) : Option (List Char) :=
  searchFrom key text

/-- `Path(parent) / rel` for a relative `rel`, kept unnormalised. -/
def joinPath (parent rel : List Char) : List Char := parent ++ '/' :: rel

/-- Filesystem side effects of `_ensure_output_dirs`, recorded explicitly. -/
inductive DirEvent where
  | mkdirParents (p : List Char)
  | checkExists (p : List Char)
  | warnMissing (p : List Char)
deriving DecidableEq

/-- Resolution of a declared directory against the input file's parent
(lines 53-55 and 60-62): absolute paths are kept, relative ones are
joined onto the parent. -/
def resolveAgainst (parent d : List Char) : List Char :=
  if isabs d then d else joinPath parent d

/-- The `outdir` branch of `_ensure_output_dirs` (lines 51-56):
`out_path.mkdir(parents=True, exist_ok=True)` when a value was parsed. -/
def outdirEvents (content parent : List Char) : List DirEvent :=
  match _parse_namelist_value content ("outdir".toList) with
  | some d => [DirEvent.mkdirParents (resolveAgainst parent d)]
  | none => []

/-- The `pseudo_dir` branch of `_ensure_output_dirs` (lines 58-64):
existence is checked and a warning logged when absent; nothing is created. -/
def pseudoEvents (content parent : List Char) (fsHas : List Char → Bool) :
    List DirEvent :=
  match _parse_namelist_value content ("pseudo_dir".toList) with
  | some d =>
    DirEvent.checkExists (resolveAgainst parent d) ::
      (if fsHas (resolveAgainst parent d) then []
       else [DirEvent.warnMissing (resolveAgainst parent d)])
  | none => []

/-- Outcome of `input_path.read_text()` on line 47: the decoded text, an
`OSError` (file missing, unreadable permissions, ...), or a
`UnicodeDecodeError` from strict decoding of non-text bytes.  The two
failure modes must be kept apart because the `except` clause on line 48
names `OSError` only, and `UnicodeDecodeError` is a `ValueError`, not an
`OSError`. -/
inductive ReadOutcome where
  | ok (content : List Char)
  | osError
  | decodeError
deriving DecidableEq

/-- `_ensure_output_dirs` (lines 45-64).  A returned `some events` is a
normal return whose list records every filesystem action performed, in
order; `none` models an exception propagating out of the function.  An
`OSError` is caught and the function returns immediately having done
nothing; a `UnicodeDecodeError` is not caught and propagates. -/
def _ensure_output_dirs (readInput : ReadOutcome) (parent : List Char)
    (fsHas : List Char → Bool) : Option (List DirEvent) :=
  match readInput with
  | ReadOutcome.osError => some []
  | ReadOutcome.decodeError => none
  | ReadOutcome.ok content =>
    some (outdirEvents content parent ++ pseudoEvents content parent fsHas)

/-- Observable actions of one run: sink-file creation, spawn, and the
signals of the timeout-escalation path. -/
inductive Event where
  | openSinks
  | spawn
  | terminate
  | waitGrace (secs : Nat)
  | kill
  | ensureDirs
  | mkRunDir
deriving DecidableEq

/-- The fixed grace period of `process.wait(timeout=10)` on line 94. -/
def GRACE_PERIOD : Nat := 10

/-- Abstract behaviour of the spawned solver process: whether it exits
before the configured timeout, whether (after `terminate`) it exits
within the grace period, and its eventual exit status. -/
structure Proc where
  exitsBeforeTimeout : Bool
  exitsWithinGrace : Bool
  finalStatus : Int

/-- `run_pw` (lines 78-102).  `hasTimeout = false` models
`timeout=None`, where `process.wait` blocks until normal exit.  On
timeout the code runs `process.terminate()`, then `process.wait(timeout=10)`,
then `process.kill()` only if that wait also expires, and returns 124;
otherwise it returns the process's own exit status. -/
def run_pw (p : Proc) (hasTimeout : Bool) : Int × List Event :=
  if hasTimeout && !p.exitsBeforeTimeout then
    if p.exitsWithinGrace then
      (124, [Event.openSinks, Event.spawn, Event.terminate, Event.waitGrace GRACE_PERIOD])
    else
      (124, [Event.openSinks, Event.spawn, Event.terminate,
             Event.waitGrace GRACE_PERIOD, Event.kill])
  else (p.finalStatus, [Event.openSinks, Event.spawn])

/-- Ambient state consulted by `main`: whether the input file exists,
the filesystem/search-path oracles used by the resolver, the behaviour
of the solver process, and the read of the captured output file. -/
structure World where
  inputExists : Bool
  fsExists : List Char → Bool
  which : List Char → Option (List Char)
  proc : Proc
  outputRead : Option (List Char)

/-- `main` (lines 105-157) after argument parsing: missing input file →
exit 1; unresolvable executable → exit 1 (before `_ensure_output_dirs`,
before the run directory is made, before `run_pw` opens the sinks and
spawns); otherwise run, classify the captured output, return 2 when
`has_error`, else the code from `run_pw`. -/
def main (w : World) (pw_cmd : List Char) (hasTimeout : Bool) : Int × List Event :=
  if !w.inputExists then (1, [])
  else
    match _find_pw_executable w.fsExists w.which pw_cmd with
    | none => (1, [])
    | some _ =>
      let r := run_pw w.proc hasTimeout
      let flags := _detect_qe_errors w.outputRead
      ((if flags.1 then 2 else r.1), Event.ensureDirs :: Event.mkRunDir :: r.2)

/-- Whether the key occurs (case-insensitively) at the head of `s`. -/
def keyOccursAt (key s : List Char) : Bool := (matchKeyCI key s).isSome

/-- Suffix of the text starting at the first (case-insensitive)
occurrence of the key, if any. -/
def firstOccSuffix (key : List Char) : List Char → Option (List Char)
  | [] => if keyOccursAt key [] then some [] else none
  | c :: rest =>
    if keyOccursAt key (c :: rest) then some (c :: rest) else firstOccSuffix key rest

/-- Modelled from the claim's words, for comparison with
`_parse_namelist_value`: the value extracted at the first occurrence of
the key in the text. -/
def valueAtFirstKeyOcc (text key : List Char) : Option (List Char) :=
  (firstOccSuffix key text).bind (matchDeclAt key)

/-- Claim C3: when the blocking wait expires at the configured timeout,
`run_pw` sends the graceful termination signal first, then waits the
fixed 10-second grace period, sends the forceful kill only if the
process is still running after that wait, and returns the sentinel 124
whatever the process's eventual exit status is. -/
theorem c3_timeout_escalation :
    GRACE_PERIOD = 10 ∧
    ∀ p : Proc, p.exitsBeforeTimeout = false →
      run_pw p true =
        (124, [Event.openSinks, Event.spawn, Event.terminate,
               Event.waitGrace GRACE_PERIOD] ++
              (if p.exitsWithinGrace then [] else [Event.kill])) := by
  refine ⟨rfl, ?_⟩
  intro p h
  unfold run_pw
  rw [h]
  cases hg : p.exitsWithinGrace <;> simp

/-- Witness for C3 at a concrete process that ignores the graceful
signal and would eventually report status 3. -/
theorem c3_timeout_escalation_witness :
    run_pw ⟨false, false, 3⟩ true =
      (124, [Event.openSinks, Event.spawn, Event.terminate,
             Event.waitGrace 10, Event.kill]) := by
  have h := c3_timeout_escalation.2 ⟨false, false, 3⟩ rfl
  simpa using h

/-- Claim C5: an output file that is empty or cannot be read classifies
as `(has_error = false, has_success = false)`; the classifier is a total
function, so it does not fail. -/
theorem c5_empty_or_unreadable :
    _detect_qe_errors none = (false, false) ∧
    _detect_qe_errors (some []) = (false, false) := by
  decide

/-- Claim C6: a specification that is absolute or contains a path
separator is returned exactly when that path exists (no search-path
fallback, `none` otherwise); a bare name goes through the search-path
lookup. -/
theorem c6_resolver :
    ∀ (fsE : List Char → Bool) (wh : List Char → Option (List Char))
      (cmd : List Char),
      ((isabs cmd || cmd.contains '/') = true →
        (_find_pw_executable fsE wh cmd = some cmd ↔ fsE cmd = true) ∧
        (fsE cmd = false → _find_pw_executable fsE wh cmd = none)) ∧
      ((isabs cmd || cmd.contains '/') = false →
        _find_pw_executable fsE wh cmd = wh cmd) := by
  intro fsE wh cmd
  constructor
  · intro h
    constructor
    · unfold _find_pw_executable
      rw [h]
      cases he : fsE cmd <;> simp
    · intro he
      unfold _find_pw_executable
      rw [h, he]
      simp
  · intro h
    unfold _find_pw_executable
    rw [h]
    simp

/-- Witness for C6: an absolute path that exists resolves to itself, and
a bare name goes to the search-path lookup. -/
theorem c6_resolver_witness :
    _find_pw_executable (fun _ => true) (fun _ => none)
        ("/usr/bin/pw.x".toList) = some ("/usr/bin/pw.x".toList) ∧
    _find_pw_executable (fun _ => false) (fun _ => some ("/w/pw.x".toList))
        ("pw.x".toList) = some ("/w/pw.x".toList) := by
  constructor
  · exact ((c6_resolver (fun _ => true) (fun _ => none)
      ("/usr/bin/pw.x".toList)).1 (by decide)).1.mpr rfl
  · exact (c6_resolver (fun _ => false) (fun _ => some ("/w/pw.x".toList))
      ("pw.x".toList)).2 (by decide)

/-- Claim C7: when the executable cannot be resolved, `main` returns 1
and the event trace is empty — no spawn, no sink-file creation, no run
directory, no `_ensure_output_dirs`. -/
theorem c7_unresolvable_executable :
    ∀ (w : World) (pw_cmd : List Char) (ht : Bool),
      w.inputExists = true →
      _find_pw_executable w.fsExists w.which pw_cmd = none →
      main w pw_cmd ht = (1, []) := by
  intro w pw_cmd ht h1 h2
  unfold main
  rw [h1, h2]
  simp

/-- Witness for C7 at a concrete world with an empty search path. -/
theorem c7_unresolvable_executable_witness :
    main ⟨true, fun _ => false, fun _ => none, ⟨true, true, 0⟩, none⟩
      ("pw.x".toList) false = (1, []) :=
  c7_unresolvable_executable
    ⟨true, fun _ => false, fun _ => none, ⟨true, true, 0⟩, none⟩
    ("pw.x".toList) false rfl rfl

/-- Counterexample to claim C8 as stated: an input deck whose bytes do
not decode as text cannot be read, yet `_ensure_output_dirs` does not
silently no-op on it — `input_path.read_text()` raises
`UnicodeDecodeError`, the `except OSError` clause on line 48 does not
catch it, and the exception propagates (`none`) instead of yielding the
no-op return (`some []`). -/
theorem c8_unreadable_counterexample :
    _ensure_output_dirs ReadOutcome.decodeError [] (fun _ => false) = none ∧
    _ensure_output_dirs ReadOutcome.decodeError [] (fun _ => false) ≠
      some [] := by
  decide

/-- Claim C8 amended: when the read of the input deck fails with an
`OSError`, `_ensure_output_dirs` silently no-ops — it returns normally
having performed no directory creation or existence check; a read
failing with `UnicodeDecodeError` is not caught and the exception
propagates. -/
theorem c8_oserror_noop :
    ∀ (parent : List Char) (fsHas : List Char → Bool),
      _ensure_output_dirs ReadOutcome.osError parent fsHas = some [] ∧
      _ensure_output_dirs ReadOutcome.decodeError parent fsHas = none := by
  intro parent fsHas
  exact ⟨rfl, rfl⟩

theorem has_error_of_eq_true (t : List Char) :
    has_error_of t = true ↔ ∃ p, p ∈ ERROR_PATTERNS ∧ SubstringOf p t := by
  simp [has_error_of, List.any_eq_true, isSubstr_iff]

theorem has_success_of_eq_true (t : List Char) :
    has_success_of t = true ↔ ∃ p, p ∈ SUCCESS_PATTERNS ∧ SubstringOf p t := by
  simp [has_success_of, List.any_eq_true, isSubstr_iff]

/-- Claim C2: whenever the classifier reports `has_error = true` on the
captured output, `main` returns 2, for every process exit code and
whether or not a success marker is also present. -/
theorem c2_error_exit_code :
    ∀ (w : World) (pw_cmd res : List Char) (ht : Bool),
      w.inputExists = true →
      _find_pw_executable w.fsExists w.which pw_cmd = some res →
      (_detect_qe_errors w.outputRead).1 = true →
      (main w pw_cmd ht).1 = 2 := by
  intro w pw_cmd res ht h1 h2 h3
  unfold main
  rw [h1, h2]
  simp [h3]

/-- Witness for C2: the spec's own scenario, an output containing both
`Error in routine` and `JOB DONE.` maps to exit code 2. -/
theorem c2_error_exit_code_witness :
    (main ⟨true, fun _ => true, fun _ => none, ⟨true, true, 0⟩,
        some ("Error in routine x\nJOB DONE.".toList)⟩
      ("/opt/pw.x".toList) false).1 = 2 :=
  c2_error_exit_code _ ("/opt/pw.x".toList) ("/opt/pw.x".toList) false
    rfl rfl (by decide)

/-- Counterexample to claim C1 as stated: a run that timed out
(`run_pw` returns the sentinel 124) whose captured output contains an
error marker makes `main` return 2, not 124 — the final exit code is
not 124 regardless of the classifier result. -/
theorem c1_timeout_counterexample :
    (run_pw (⟨false, true, 0⟩ : Proc) true).1 = 124 ∧
    (main ⟨true, fun _ => true, fun _ => none, ⟨false, true, 0⟩,
        some ("ERROR".toList)⟩ ("/opt/pw.x".toList) true).1 = 2 := by
  decide

/-- Claim C1 amended: when the run timed out and the classifier reports
`has_error = false`, the final exit code is the sentinel 124 (an error
marker in the captured output instead takes precedence and yields 2). -/
theorem c1_timeout_exit_code :
    ∀ (w : World) (pw_cmd res : List Char),
      w.inputExists = true →
      _find_pw_executable w.fsExists w.which pw_cmd = some res →
      w.proc.exitsBeforeTimeout = false →
      (_detect_qe_errors w.outputRead).1 = false →
      (main w pw_cmd true).1 = 124 := by
  intro w pw_cmd res h1 h2 h3 h4
  unfold main
  rw [h1, h2]
  cases hg : w.proc.exitsWithinGrace <;> simp [h4, run_pw, h3, hg]

/-- Witness for amended C1: a timed-out run whose partial output holds
only a success banner still exits 124. -/
theorem c1_timeout_exit_code_witness :
    (main ⟨true, fun _ => true, fun _ => none, ⟨false, false, 7⟩,
        some ("JOB DONE.".toList)⟩ ("/opt/pw.x".toList) true).1 = 124 :=
  c1_timeout_exit_code _ ("/opt/pw.x".toList) ("/opt/pw.x".toList)
    rfl rfl rfl (by decide)

/-- Claim C4: a text with a success marker and no error marker
classifies as `(false, true)`; a text with an error marker has
`has_error = true` regardless of success markers; and each flag is
exactly the presence test over its own pattern set, computed
independently of the other. -/
theorem c4_classifier_independent :
    ∀ t : List Char,
      ((∃ p, p ∈ SUCCESS_PATTERNS ∧ SubstringOf p t) →
        (∀ p, p ∈ ERROR_PATTERNS → ¬ SubstringOf p t) →
        _detect_qe_errors (some t) = (false, true)) ∧
      ((∃ p, p ∈ ERROR_PATTERNS ∧ SubstringOf p t) →
        (_detect_qe_errors (some t)).1 = true) ∧
      (_detect_qe_errors (some t)).1 = has_error_of t ∧
      (_detect_qe_errors (some t)).2 = has_success_of t := by
  intro t
  refine ⟨?_, ?_, rfl, rfl⟩
  · intro hs he
    have h1 : has_error_of t = false := by
      cases h : has_error_of t
      · rfl
      · exfalso
        obtain ⟨p, hp, hsub⟩ := (has_error_of_eq_true t).mp h
        exact he p hp hsub
    have h2 : has_success_of t = true := (has_success_of_eq_true t).mpr hs
    simp [_detect_qe_errors, h1, h2]
  · intro he
    have h1 := (has_error_of_eq_true t).mpr he
    simp [_detect_qe_errors, h1]

/-- Witness for C4: a pure-success text classifies `(false, true)` and a
text with both markers has `has_error = true`. -/
theorem c4_classifier_independent_witness :
    _detect_qe_errors (some ("convergence has been achieved".toList)) =
      (false, true) ∧
    (_detect_qe_errors (some ("Error in routine x JOB DONE.".toList))).1 =
      true := by
  constructor
  · exact (c4_classifier_independent ("convergence has been achieved".toList)).1
      (by decide) (by decide)
  · exact (c4_classifier_independent ("Error in routine x JOB DONE.".toList)).2.1
      (by decide)

/-- Claim C9: a declared relative `outdir` is resolved against the input
file's parent and created with parents; a declared relative
`pseudo_dir` is only checked for existence, a warning is emitted exactly
when it is absent, and the pseudo branch never creates a directory. -/
theorem c9_directory_preparation :
    ∀ (content parent : List Char) (fsHas : List Char → Bool),
      (∀ d, _parse_namelist_value content ("outdir".toList) = some d →
        isabs d = false →
        _ensure_output_dirs (ReadOutcome.ok content) parent fsHas =
          some (DirEvent.mkdirParents (joinPath parent d) ::
            pseudoEvents content parent fsHas)) ∧
      (∀ q, _parse_namelist_value content ("pseudo_dir".toList) = some q →
        isabs q = false →
        pseudoEvents content parent fsHas =
          DirEvent.checkExists (joinPath parent q) ::
            (if fsHas (joinPath parent q) then []
             else [DirEvent.warnMissing (joinPath parent q)])) ∧
      (∀ p, DirEvent.mkdirParents p ∉ pseudoEvents content parent fsHas) := by
  intro content parent fsHas
  refine ⟨?_, ?_, ?_⟩
  · intro d hd habs
    show some (outdirEvents content parent ++ pseudoEvents content parent fsHas) = _
    unfold outdirEvents
    rw [hd]
    simp [resolveAgainst, habs]
  · intro q hq habs
    unfold pseudoEvents
    rw [hq]
    simp [resolveAgainst, habs]
  · intro p
    unfold pseudoEvents
    cases h : _parse_namelist_value content ("pseudo_dir".toList) with
    | none => simp
    | some d => cases hf : fsHas (resolveAgainst parent d) <;> simp [hf]

/-- Witness for C9: the spec's scenario deck, with a missing pseudo
directory, produces exactly one mkdir (for the resolved outdir), one
existence check and one warning (for the resolved pseudo dir). -/
theorem c9_directory_preparation_witness :
    _ensure_output_dirs
        (ReadOutcome.ok ("outdir = ./out/\npseudo_dir = ./ps".toList))
        ("/work".toList) (fun _ => false) =
      some [DirEvent.mkdirParents (joinPath ("/work".toList) ("./out/".toList)),
        DirEvent.checkExists (joinPath ("/work".toList) ("./ps".toList)),
        DirEvent.warnMissing (joinPath ("/work".toList) ("./ps".toList))] := by
  have h := c9_directory_preparation
    ("outdir = ./out/\npseudo_dir = ./ps".toList) ("/work".toList) (fun _ => false)
  rw [h.1 ("./out/".toList) (by decide) (by decide),
      h.2.1 ("./ps".toList) (by decide) (by decide)]
  simp

theorem matchKeyCI_ci (key : List Char) :
    ∀ (a b d : List Char), a.map lowerAscii = b.map lowerAscii →
      a.length ≤ key.length →
      matchKeyCI key (a ++ d) = matchKeyCI key (b ++ d) := by
  intro a
  induction a generalizing key with
  | nil =>
    intro b d hmap _
    cases b with
    | nil => rfl
    | cons x xs => simp at hmap
  | cons c a ih =>
    intro b d hmap hlen
    cases b with
    | nil => simp at hmap
    | cons c2 b =>
      simp only [List.map_cons, List.cons.injEq] at hmap
      obtain ⟨hc, hrest⟩ := hmap
      cases key with
      | nil => simp at hlen
      | cons k ks =>
        simp only [List.cons_append, matchKeyCI]
        rw [hc]
        by_cases hk : lowerAscii c2 = lowerAscii k
        · rw [if_pos hk, if_pos hk]
          exact ih ks b d hrest (Nat.le_of_succ_le_succ (by simpa using hlen))
        · rw [if_neg hk, if_neg hk]

theorem matchDeclAt_ci (key : List Char) :
    ∀ (a b d : List Char), a.map lowerAscii = b.map lowerAscii →
      a.length ≤ key.length →
      matchDeclAt key (a ++ d) = matchDeclAt key (b ++ d) := by
  intro a b d hmap hlen
  unfold matchDeclAt
  rw [matchKeyCI_ci key a b d hmap hlen]

theorem searchFrom_ci (key : List Char) :
    ∀ (a b d : List Char), a.map lowerAscii = b.map lowerAscii →
      a.length ≤ key.length →
      searchFrom key (a ++ d) = searchFrom key (b ++ d) := by
  intro a
  induction a with
  | nil =>
    intro b d hmap _
    cases b with
    | nil => rfl
    | cons x xs => simp at hmap
  | cons c a ih =>
    intro b d hmap hlen
    cases b with
    | nil => simp at hmap
    | cons c2 b =>
      have hmd := matchDeclAt_ci key (c :: a) (c2 :: b) d hmap hlen
      simp only [List.map_cons, List.cons.injEq] at hmap
      obtain ⟨hc, hrest⟩ := hmap
      simp only [List.cons_append] at hmd
      simp only [List.cons_append, searchFrom, List.append_eq]
      rw [hmd]
      cases hm : matchDeclAt key (c2 :: (b ++ d)) with
      | some v => rfl
      | none => exact ih b d hrest (Nat.le_of_succ_le (by simpa using hlen))

theorem searchFrom_first (key : List Char) :
    ∀ (i : Nat) (text v : List Char),
      matchDeclAt key (text.drop i) = some v →
      (∀ j, j < i → matchDeclAt key (text.drop j) = none) →
      searchFrom key text = some v := by
  intro i
  induction i with
  | zero =>
    intro text v hv _
    simp only [List.drop_zero] at hv
    cases text with
    | nil => simpa [searchFrom] using hv
    | cons c rest => simp [searchFrom, hv]
  | succ i ih =>
    intro text v hv hmin
    have h0 : matchDeclAt key text = none := by
      have h := hmin 0 (Nat.succ_pos i)
      simpa using h
    cases text with
    | nil =>
      rw [List.drop_nil] at hv
      rw [h0] at hv
      cases hv
    | cons c rest =>
      simp only [searchFrom]
      rw [h0]
      refine ih rest v (by simpa [List.drop_succ_cons] using hv) ?_
      intro j hj
      have h := hmin (j + 1) (Nat.succ_lt_succ hj)
      simpa [List.drop_succ_cons] using h

/-- Counterexample to claim C10 as stated: in the text
`outdir, outdir = b` the first occurrence of the key begins no
declaration and so yields no value, yet the extractor returns `b`, taken
from the second occurrence — the returned value is not always that of
the first occurrence of the key. -/
theorem c10_first_occurrence_counterexample :
    _parse_namelist_value ("outdir, outdir = b".toList) ("outdir".toList) =
      some ("b".toList) ∧
    valueAtFirstKeyOcc ("outdir, outdir = b".toList) ("outdir".toList) =
      none := by
  decide

/-- Claim C10 amended: the extractor matches the key case-insensitively
(replacing the leading key spelling by any case variant leaves the
result unchanged), and the value returned is that of the first position
at which the whole declaration pattern (key, `=`, non-empty value)
matches — not necessarily the first occurrence of the key alone. -/
theorem c10_case_insensitive_first_match :
    (∀ key kv d : List Char, kv.map lowerAscii = key.map lowerAscii →
      _parse_namelist_value (kv ++ d) key =
        _parse_namelist_value (key ++ d) key) ∧
    (∀ (key text : List Char) (i : Nat) (v : List Char),
      matchDeclAt key (text.drop i) = some v →
      (∀ j, j < i → matchDeclAt key (text.drop j) = none) →
      _parse_namelist_value text key = some v) := by
  constructor
  · intro key kv d hmap
    have hl : kv.length = key.length := by
      have h := congrArg List.length hmap
      simpa using h
    exact searchFrom_ci key kv key d hmap hl.le
  · intro key text i v hv hmin
    exact searchFrom_first key i text v hv hmin

/-- Witness for amended C10: `OUTDIR = x` extracts the same value as
`outdir = x`, and in `a outdir = y` the value comes from the position
where the full declaration matches. -/
theorem c10_case_insensitive_first_match_witness :
    _parse_namelist_value ("OUTDIR = x".toList) ("outdir".toList) =
      _parse_namelist_value ("outdir = x".toList) ("outdir".toList) ∧
    _parse_namelist_value ("a outdir = y".toList) ("outdir".toList) =
      some ("y".toList) := by
  constructor
  · have e1 : ("OUTDIR = x".toList : List Char) =
        "OUTDIR".toList ++ " = x".toList := by decide
    have e2 : ("outdir = x".toList : List Char) =
        "outdir".toList ++ " = x".toList := by decide
    rw [e1, e2]
    exact c10_case_insensitive_first_match.1 ("outdir".toList)
      ("OUTDIR".toList) (" = x".toList) (by decide)
  · exact c10_case_insensitive_first_match.2 ("outdir".toList)
      ("a outdir = y".toList) 2 ("y".toList) (by decide) (by decide)

end QERunner
